import Mathlib

/- Shallow embedding of `evelib/yaml_workaround.py`, the hand-rolled
line-oriented loader for a YAML-like subset.

Modelling conventions:
* Python `str` is Lean `String`; `s.data` is its character list.  The input
  byte stream is modelled as the list of the file's physical lines exactly as
  `file.readline()` delivers them (each line keeps its trailing newline;
  `readline` past the end of the stream yields the empty string).  All seeks
  performed by the source are backwards by the exact byte length of lines just
  read, so rewinding is modelled at line granularity.
* Python's `str.isnumeric` is modelled as "non-empty and all ASCII digits";
  the data-export files this loader targets are ASCII, and none of the exotic
  Unicode numerics (for which `int(...)` would in fact fail) occur.
* Python floats are kept symbolically as their source text (`Value.vfloat`):
  no claim depends on float arithmetic, only on which branch is taken.
* Fallible code returns `Except Err`; each `Err` constructor corresponds to a
  concrete raise site (or unavoidable runtime error) of the source.
  `Err.hang` marks the one place the source loops forever: the skip loop of
  `read_future_line` at end of stream, where `readline()` keeps returning
  `b""`, which satisfies the "blank line" test, so the loop never exits.
* The mutable `data_layers` stack of aliased containers is modelled as a
  zipper: each layer stores its own current contents together with the spot
  in the layer below where the source had appended the (shared, mutable)
  container.  Popping writes the finished child back into that spot, which is
  observationally identical to the source's aliasing because the parent is
  never read or written at that spot while the child layer is open.
-/

namespace EveYaml

/-- Whitespace for Python `str.strip()` / `rstrip()` with no arguments.
The inputs only ever contain spaces and newlines. -/
def isWS (c : Char) : Bool := c = ' ' || c = '\t' || c = '\r' || c = '\n'

/-- Characters stripped from the left, Python `lstrip()` style. -/
def stripLeftWS (l : List Char) : List Char := l.dropWhile isWS

/-- Characters stripped from the right, Python `rstrip()` style. -/
def stripRightWS (l : List Char) : List Char := (l.reverse.dropWhile isWS).reverse

/-- Python `str.strip()` with no arguments. -/
def pyStrip (s : String) : String := ⟨stripRightWS (stripLeftWS s.data)⟩

/-- Python `str.rstrip()` with no arguments. -/
def pyRStrip (s : String) : String := ⟨stripRightWS s.data⟩

/-- Python `str.strip(c)` for a single-character argument. -/
def pyStripChar (s : String) (c : Char) : String :=
  ⟨((s.data.dropWhile (· = c)).reverse.dropWhile (· = c)).reverse⟩

/-- Python `str.rstrip(c)` for a single-character argument. -/
def pyRStripChar (s : String) (c : Char) : String :=
  ⟨(s.data.reverse.dropWhile (· = c)).reverse⟩

/-- Python `str.startswith`. -/
def pyStartsWith (s p : String) : Bool := p.data.isPrefixOf s.data

/-- Python `str.endswith`. -/
def pyEndsWith (s p : String) : Bool := p.data.isSuffixOf s.data

/-- Python slice `s[1:]`. -/
def pyDropOne (s : String) : String := ⟨s.data.drop 1⟩

/-- Python slice `s[1:-1]`. -/
def pySlice1m1 (s : String) : String := ⟨(s.data.drop 1).dropLast⟩

/-- Python `s.split(sep)` for a single-character separator. -/
def pySplitChar (c : Char) : List Char → List (List Char)
  | [] => [[]]
  | x :: rest =>
    let r := pySplitChar c rest
    if x = c then [] :: r
    else
      match r with
      | s :: ss => (x :: s) :: ss
      | [] => [[x]]

/-- The double-quote character (written numerically to keep quoting simple). -/
def dquote : Char := Char.ofNat 34

/-- The single-quote character. -/
def squote : Char := Char.ofNat 39

/-- The backslash character. -/
def bslash : Char := Char.ofNat 92

/-- Value of a digit string, Python `int(...)` on an all-digit string. -/
def digitsToNat (l : List Char) : Nat :=
  l.foldl (fun n c => n * 10 + (c.toNat - 48)) 0

/-- Error outcomes.  Each constructor corresponds to one raise site or
runtime error of the source; `hang` marks the end-of-stream infinite loop of
`read_future_line`, and `outOfFuel` is an artifact of bounding two loops by a
fuel that provably exceeds their iteration count (see the call sites). -/
inductive Err where
  /-- `ValueError` from `float(given)` in `handle_value` (more than one dot). -/
  | floatValueError
  /-- `raise ValueError("weh")` in `on_line`: indent above the dedented stack. -/
  | indentMismatch
  /-- `raise ValueError(f'Cannot handle line ...')` in `on_line`. -/
  | cannotHandle
  /-- `raise ValueError(f"Expected list layer, ...")` in `handle_list`. -/
  | expectedList
  /-- `raise ValueError(f"Expected dict layer, ...")` in `handle_dict`. -/
  | expectedDict
  /-- `raise ValueError(f"Future indent level ... is less than ...")`. -/
  | futureIndentLess
  /-- `raise ValueError('Found characters outside of starting_string ...')`. -/
  | stopStringMidStart
  /-- `raise ValueError('Found characters outside of decoded_data ...')`. -/
  | stopStringMidLine
  /-- `TypeError`: unhashable key used in a dict assignment. -/
  | typeError
  /-- `IndexError`: `data_layers[-1]` / `.pop()` / `data_layers[0]` on an
  empty stack, or `starting_string[0]` on an empty string. -/
  | indexError
  /-- The skip loop of `read_future_line` runs at end of stream: `readline()`
  returns `b""` forever, `b"".strip() == b""` holds, the loop never exits. -/
  | hang
  /-- Fuel exhaustion; unreachable for the fuel supplied at the call sites. -/
  | outOfFuel
  deriving DecidableEq, Repr

/-- The value tree built by the loader: Python `str`, `int`, `float`, `bool`,
`list` and `dict` (insertion-ordered association list). -/
inductive Value where
  | vstr : String → Value
  | vint : Int → Value
  | vfloat : String → Value
  | vbool : Bool → Value
  | vlist : List Value → Value
  | vdict : List (Value × Value) → Value

/- ------------------------------------------------------------------ -/
/- Line classification helpers (module-level functions of the source). -/

/-- `strip_indent`: `line.lstrip(" ")`. -/
def strip_indent (line : String) : String := ⟨line.data.dropWhile (· = ' ')⟩

/-- `get_indent_level`: `len(line) - len(strip_indent(line))`. -/
def get_indent_level (line : String) : Int :=
  ((line.data.length - (strip_indent line).data.length : Nat) : Int)

/-- `strip_list_indent`: `line.lstrip("- ")`.  Python treats the argument of
`lstrip` as a character set, so this removes every leading `-` and space. -/
def strip_list_indent (line : String) : String :=
  ⟨line.data.dropWhile (fun c => c = '-' || c = ' ')⟩

/-- `get_stripped_list_indent`: `len(line) - len(strip_list_indent(line))`. -/
def get_stripped_list_indent (line : String) : Int :=
  ((line.data.length - (strip_list_indent line).data.length : Nat) : Int)

/-- Length of `line.split("- ")[0]`: the characters before the first
occurrence of the two-character marker `"- "` (the whole line if absent). -/
def lenBeforeDashSpace : List Char → Nat
  | [] => 0
  | '-' :: ' ' :: _ => 0
  | _ :: rest => 1 + lenBeforeDashSpace rest

/-- `get_list_indent`: `len(line.split("- ")[0]) + 2` when the space-stripped
line starts with `"- "`, else `None`. -/
def get_list_indent (line : String) : Option Int :=
  if pyStartsWith (strip_indent line) "- " then
    some ((lenBeforeDashSpace line.data : Nat) + 2 : Nat)
  else none

/-- Python `a or b` for `a : Optional[int]`: `None` and `0` are falsy.
(`get_list_indent` never yields `0`, but the translation keeps the rule.) -/
def pyOr (a : Option Int) (b : Int) : Int :=
  match a with
  | some n => if n = 0 then b else n
  | none => b

/- ------------------------------------------------------------------ -/
/- `find_stop_string`                                                  -/

/-- Python `s.replace(p, sub)` for a two-character pattern and a
two-character replacement (left-to-right, non-overlapping): used for the
`\\"` → `~~` and `""` → `~~` replacements of `find_stop_string`. -/
def replace2 (p1 p2 sub1 sub2 : Char) : List Char → List Char
  | [] => []
  | [c] => [c]
  | c1 :: c2 :: rest =>
    if c1 = p1 ∧ c2 = p2 then sub1 :: sub2 :: replace2 p1 p2 sub1 sub2 rest
    else c1 :: replace2 p1 p2 sub1 sub2 (c2 :: rest)

/-- Index of the first occurrence of a character. -/
def firstIdx (t : Char) : List Char → Option Nat
  | [] => none
  | c :: rest => if c = t then some 0 else (firstIdx t rest).map (· + 1)

/-- `find_stop_string(given_text, stop_string)`.  The source replaces the
escaped (`\\` + stop) and doubled (stop + stop) forms by `~~`, splits on the
stop character, returns `None` when the split has one piece (stop absent) and
otherwise returns from the first loop iteration with the length of the first
piece — i.e. the index of the first remaining stop character.  Both
replacements preserve length, so indices refer to the original text too. -/
def find_stop_string (given_text : String) (stop : Char) : Option Nat :=
  let replaced := replace2 bslash stop '~' '~' given_text.data
  let replaced2 := replace2 stop stop '~' '~' replaced
  firstIdx stop replaced2

/- ------------------------------------------------------------------ -/
/- `handle_value`                                                      -/

/-- `handle_value`, structured by explicit fuel (the source recurses on the
elements of a bracketed flow sequence; every recursive argument is at least
three characters shorter than `given`, so the fuel `given.length + 1`
supplied by `handle_value` is never exhausted). -/
def handle_value_f : Nat → String → Except Err Value
  | 0, _ => .error .outOfFuel
  | fuel + 1, given0 =>
    let given := pyStrip given0
    let temp : String := ⟨given.data.filter (· ≠ '.')⟩
    if temp.data ≠ [] ∧ temp.data.all Char.isDigit then
      if temp ≠ given then
        -- `float(given)`: `given` is made of digits and at least one dot;
        -- Python's float parser accepts exactly the one-dot forms
        -- (`"1.2"`, `"12."`, `".5"`) and raises ValueError otherwise.
        if given.data.count '.' = 1 then .ok (.vfloat given)
        else .error .floatValueError
      else .ok (.vint (digitsToNat given.data))
    else if given = "true" then .ok (.vbool true)
    else if given = "false" then .ok (.vbool false)
    else if pyStartsWith given "[" ∧ pyEndsWith given "]" then
      let parts := pySplitChar ',' (pySlice1m1 given).data
      if parts.length > 1 then
        (parts.mapM (fun p => handle_value_f fuel ⟨p⟩)).map Value.vlist
      else .ok (.vlist [])
    else .ok (.vstr given)

/-- `handle_value(given)`. -/
def handle_value (given : String) : Except Err Value :=
  handle_value_f (given.data.length + 1) given

/- ------------------------------------------------------------------ -/
/- `get_dict_value`                                                    -/

/-- Scanning loop of `get_dict_value` over the stripped line: find the first
`:` that is the last character (open marker, the source's `{}` sentinel,
modelled as `none`) or is followed by a space (inline value).  `acc` holds
the characters already passed, in reverse (`given_line[:index]`). -/
def gdv_loop (acc : List Char) : List Char → Except Err (Option (Value × Option Value))
  | [] => .ok none
  | c :: rest =>
    if c = ':' then
      match rest with
      | [] => (handle_value (strip_list_indent ⟨acc.reverse⟩)).map (fun k => some (k, none))
      | ' ' :: _ => do
        let k ← handle_value (strip_list_indent ⟨acc.reverse⟩)
        let v ← handle_value ⟨rest⟩
        .ok (some (k, some v))
      | _ => gdv_loop (c :: acc) rest
    else gdv_loop (c :: acc) rest

/-- `get_dict_value(given_line)`: the key, like the value, goes through
`handle_value` (so a numeric key text yields an `int` key).  Returns `none`
for a line with no qualifying colon; the inner `Option` of the pair is
`none` for the "key with no inline value" `{}` marker. -/
def get_dict_value (given_line : String) : Except Err (Option (Value × Option Value)) :=
  gdv_loop [] (pyStrip (strip_indent given_line)).data

/- ------------------------------------------------------------------ -/
/- The context stack (`NestedData` layers over aliased containers).    -/

/-- A container under construction: the `dict | list` of `NestedData.data`. -/
inductive Node where
  | ndict : List (Value × Value) → Node
  | nlist : List Value → Node

/-- Where a layer's container was appended inside the layer below it (the
write-back spot of the zipper; see the module comment). -/
inductive Attach where
  /-- The root container; it sits in no parent. -/
  | root
  /-- Stored under this key of the parent dict. -/
  | akey : Value → Attach
  /-- Appended as the (current) last element of the parent list. -/
  | aslot

/-- One `NestedData` entry: relative indent plus the aliased container. -/
structure Layer where
  indent : Int
  node : Node
  att : Attach

def Node.isDict : Node → Bool
  | .ndict _ => true
  | .nlist _ => false

def Node.isList : Node → Bool
  | .ndict _ => false
  | .nlist _ => true

def Node.toValue : Node → Value
  | .ndict d => .vdict d
  | .nlist l => .vlist l

/-- Hashability of a `handle_value` result as a dict key: Python lists (and
dicts) are unhashable, the scalar results are hashable. -/
def isUnhashable : Value → Bool
  | .vlist _ => true
  | .vdict _ => true
  | _ => false

/-- Key equality for dict assignment.  The keys this loader produces are
`handle_value` scalars; equality within one constructor matches Python.
(Python's cross-type numeric equality — `1 == 1.0 == True` — is not
modelled; no export file mixes key types inside one mapping.) -/
def keyEq : Value → Value → Bool
  | .vstr a, .vstr b => a = b
  | .vint a, .vint b => a = b
  | .vfloat a, .vfloat b => a = b
  | .vbool a, .vbool b => a = b
  | _, _ => false

/-- Python `d[k] = v` on an insertion-ordered dict: replace in place if the
key is present (keeping its position and original key object), else append. -/
def dictSet (d : List (Value × Value)) (k v : Value) : List (Value × Value) :=
  match d with
  | [] => [(k, v)]
  | (k', v') :: rest => if keyEq k k' then (k', v) :: rest else (k', v') :: dictSet rest k v

/-- Replace the last element of a list (the slot an `Attach.aslot` child was
appended into).  The empty case cannot arise: a slot exists whenever a child
layer was attached. -/
def setLast (l : List Value) (v : Value) : List Value :=
  match l with
  | [] => []
  | [_] => [v]
  | x :: rest => x :: setLast rest v

/-- Write a finished child layer back into its spot in the parent layer
(models the aliasing of the source: the parent already holds the same
container object the child layer mutated). -/
def reattach (child parent : Layer) : Layer :=
  { parent with
    node :=
      match child.att, parent.node with
      | .akey k, .ndict d => .ndict (dictSet d k child.node.toValue)
      | .aslot, .nlist l => .nlist (setLast l child.node.toValue)
      | _, _ => parent.node }

/-- `sum_layer_indent`: `sum(nest.indent for nest in data_layers)`.  The
stack is kept top-first (Python appends and pops at the list's end; here the
head is the top layer `data_layers[-1]`). -/
def sum_layer_indent (ls : List Layer) : Int := (ls.map Layer.indent).sum

/-- `pop_data_layer()` as used stand-alone in `handle_list`: `IndexError` on
an empty stack; popping the sole (root) layer just leaves the stack empty. -/
def popLayer : List Layer → Except Err (List Layer)
  | [] => .error .indexError
  | [_] => .ok []
  | top :: p :: rest => .ok (reattach top p :: rest)

/-- The dedent loop of `on_line`, already holding the popped top layer:
`while current_indent_level < sum_layer_indent: pop_data_layer()`.  When the
last layer is popped the re-checked sum is `0 ≤ cur` (the caller's `cur` is
an indent, hence non-negative), so the loop then exits with an empty stack;
a negative `cur` cannot arise from `get_list_indent`/`get_indent_level`. -/
def dedent_go (cur : Int) (top : Layer) : List Layer → List Layer
  | [] => if cur < top.indent then [] else [top]
  | p :: rest =>
    if cur < sum_layer_indent (top :: p :: rest) then dedent_go cur (reattach top p) rest
    else top :: p :: rest

/-- The dedent loop of `on_line` on the whole stack. -/
def dedent (cur : Int) : List Layer → List Layer
  | [] => []
  | top :: rest => dedent_go cur top rest

/- ------------------------------------------------------------------ -/
/- The stream and `read_future_line`                                   -/

/-- The open byte stream: the file's physical lines plus the read cursor.
`readline` past the end yields `""` (Python `b""`), and seeks are whole
lines backwards (the source always seeks by the exact byte length of lines
it has just read; every real line is at least one byte). -/
structure PFile where
  lines : List String
  pos : Nat

/-- `self.file.seek(-n, 1)` for `n` the total length of `n` whole lines. -/
def PFile.seekBack (f : PFile) (n : Nat) : PFile := { f with pos := f.pos - n }

/-- The skip loop of `read_future_line` over the lines still ahead: skip
blank (`strip() == b""`) and raw-comment (`startswith(b"#")` — note: on the
raw, unstripped line) lines; return the retained line with the number of
lines consumed (`len(full_data)` in line units).  `none` is end of stream,
where the source's loop never exits (`readline()` returns `b""` forever). -/
def skip_insig : List String → Option (String × Nat)
  | [] => none
  | l :: rest =>
    if pyStrip l = "" ∨ pyStartsWith l "#" then
      (skip_insig rest).map (fun p => (p.1, p.2 + 1))
    else some (l, 1)

/-- `read_future_line`: read forward to the next significant line, then seek
back by exactly the bytes consumed (`self.file.seek(-len(full_data), 1)`). -/
def read_future_line (f : PFile) : Except Err (String × PFile) :=
  match skip_insig (f.lines.drop f.pos) with
  | none => .error .hang
  | some (l, fullLen) => .ok (l, PFile.seekBack { f with pos := f.pos + fullLen } fullLen)

/- ------------------------------------------------------------------ -/
/- `get_text_block`                                                    -/

/-- The read loop of `get_text_block` over the lines ahead of the cursor.
Returns the finished string and the net number of lines consumed (a line
read and then pushed back by `self.file.seek(-len(raw_data), 1)` counts 0).
End of stream (`readline() == b""`) leaves the loop and returns
`ret.strip()`. -/
def gtb_loop (stop : Option Char) (current_indent : Int) (ret : String) :
    List String → Except Err (String × Nat)
  | [] => .ok (pyStrip ret, 0)
  | raw :: rest =>
    if pyStrip raw = "" then
      -- Empty whitespace, add a new line.
      (gtb_loop stop current_indent (ret ++ "\n") rest).map (fun p => (p.1, p.2 + 1))
    else
      match stop with
      | none =>
        if get_indent_level raw ≤ current_indent then
          -- Indent decrease: seek the line back and leave the loop.
          .ok (pyStrip ret, 0)
        else
          (gtb_loop none current_indent (ret ++ " " ++ pyStrip raw) rest).map
            (fun p => (p.1, p.2 + 1))
      | some sc =>
        match find_stop_string raw sc with
        | none =>
          (gtb_loop (some sc) current_indent (ret ++ " " ++ pyStrip raw) rest).map
            (fun p => (p.1, p.2 + 1))
        | some idx =>
          if idx ≠ (pyRStrip raw).data.length - 1 then .error .stopStringMidLine
          else .ok (ret ++ " " ++ pyRStripChar (pyStrip raw) sc, 1)

/-- `get_text_block(starting_string, current_indent)`, returning the string
and the net number of lines consumed from the stream.  Note that in the
multi-line quoted case the accumulator starts as `starting_string` itself,
so the opening quote character is still present in the returned value; only
the single-line case strips both quotes (`starting_string.strip(stop)`). -/
def get_text_block (starting_string : String) (current_indent : Int)
    (rest : List String) : Except Err (String × Nat) :=
  match starting_string.data with
  | [] => .error .indexError  -- `starting_string[0]` on an empty string
  | c :: _ =>
    if c = dquote ∨ c = squote then
      match find_stop_string (pyDropOne starting_string) c with
      | none => gtb_loop (some c) current_indent starting_string rest
      | some idx =>
        if idx ≠ starting_string.data.length - 2 then .error .stopStringMidStart
        else .ok (pyStripChar starting_string c, 0)
    else gtb_loop none current_indent starting_string rest

/- ------------------------------------------------------------------ -/
/- `handle_dict`, `handle_list`, `on_line`                             -/

/-- `self.top_layer.data[key] = v` on a dict layer: `TypeError` for an
unhashable key (the only way `handle_value` output is unhashable is a flow
sequence or, impossibly here, a dict). -/
def dictAssign (top : Layer) (k v : Value) : Except Err Layer :=
  if isUnhashable k then .error .typeError
  else
    match top.node with
    | .ndict d => .ok { top with node := .ndict (dictSet d k v) }
    | .nlist _ => .error .typeError

/-- `handle_dict(decoded_data, current_indent_level)`.  `rest` is the list
of physical lines after the current one; the result carries the mutated
stack and the net number of those lines consumed.  `.ok none` is the
source's `return False` (no qualifying colon). -/
def handle_dict (decoded : String) (current : Int) (rest : List String)
    (layers : List Layer) : Except Err (Option (List Layer × Nat)) := do
  match ← get_dict_value decoded with
  | none => .ok none
  | some (key, inline) =>
    match layers with
    | [] => .error .indexError  -- `self.top_layer` on an empty stack
    | top :: below =>
      if ¬ top.node.isDict then .error .expectedDict
      else
        match inline with
        | none =>
          -- `dict_data[1] == {}`: open marker, peek the next significant line.
          match read_future_line ⟨rest, 0⟩ with
          | .error e => .error e
          | .ok (future, fAfter) =>
            let future_indent := pyOr (get_list_indent future) (get_indent_level future)
            if future_indent < current then .error .futureIndentLess
            else if pyStartsWith (strip_indent future) "- " then
              let list_indent := (get_list_indent future).getD 0 - current
              let top' ← dictAssign top key (.vlist [])
              .ok (some (⟨list_indent, .nlist [], .akey key⟩ :: top' :: below, fAfter.pos))
            else
              let dict_indent := future_indent - current
              let top' ← dictAssign top key (.vdict [])
              .ok (some (⟨dict_indent, .ndict [], .akey key⟩ :: top' :: below, fAfter.pos))
        | some v =>
          match v with
          | .vstr s => do
            let (txt, k) ← get_text_block s current rest
            let top' ← dictAssign top key (.vstr txt)
            .ok (some (top' :: below, k))
          | _ => do
            let top' ← dictAssign top key v
            .ok (some (top' :: below, 0))

/-- `handle_list(decoded_data, current_indent_level)`.  Same conventions as
`handle_dict`. -/
def handle_list (decoded : String) (current : Int) (rest : List String)
    (layers : List Layer) : Except Err (Option (List Layer × Nat)) :=
  if ¬ pyStartsWith (strip_indent decoded) "- " then .ok none
  else
    match layers with
    | [] => .error .indexError  -- `self.top_layer` in the isinstance test
    | top :: below => do
      -- List entry right after a dict layer: pop that layer.
      let layers1 ←
        if top.node.isDict ∧ current > get_indent_level decoded then popLayer (top :: below)
        else .ok (top :: below)
      match layers1 with
      | [] => .error .indexError
      | top1 :: below1 =>
        if ¬ top1.node.isList then .error .expectedList
        else
          match top1.node with
          | .ndict _ => .error .expectedList
          | .nlist elems =>
            match ← get_dict_value decoded with
            | some _ =>
              -- Dict inside list data: append a fresh dict, push its layer,
              -- then let `handle_dict` fill it (its bool result is ignored).
              let dict_indent := get_stripped_list_indent decoded - current
              let parent : Layer := { top1 with node := .nlist (elems ++ [.vdict []]) }
              let layers2 := Layer.mk dict_indent (.ndict []) .aslot :: parent :: below1
              match ← handle_dict decoded (current + dict_indent) rest layers2 with
              | none => .ok (some (layers2, 0))
              | some (layers3, k) => .ok (some (layers3, k))
            | none => do
              let v ← handle_value (strip_list_indent decoded)
              .ok (some ({ top1 with node := .nlist (elems ++ [v]) } :: below1, 0))

/-- `on_line(raw_data, decoded_data)` (the raw bytes are only used by the
source for logging).  Blank and trimmed-comment lines are ignored; otherwise
dedent the stack, reject an indent above it, and dispatch. -/
def on_line (decoded : String) (rest : List String) (layers : List Layer) :
    Except Err (List Layer × Nat) :=
  if pyStrip decoded = "" then .ok (layers, 0)
  else if pyStartsWith (pyStrip decoded) "#" then .ok (layers, 0)
  else
    let current := pyOr (get_list_indent decoded) (get_indent_level decoded)
    let layers1 := dedent current layers
    if current > sum_layer_indent layers1 then .error .indentMismatch
    else
      match handle_list decoded current rest layers1 with
      | .error e => .error e
      | .ok (some r) => .ok r
      | .ok none =>
        match handle_dict decoded current rest layers1 with
        | .error e => .error e
        | .ok (some r) => .ok r
        | .ok none => .error .cannotHandle

/- ------------------------------------------------------------------ -/
/- `load`                                                              -/

/-- Fold the remaining open layers into the bottom (root) one and return its
contents: the source's `data_layers[0].data`, which by aliasing already
holds every finished child. -/
def collapse_into (top : Layer) : List Layer → Value
  | [] => top.node.toValue
  | p :: rest => collapse_into (reattach top p) rest

/-- `data_layers[0].data` at end of stream (`IndexError` on an empty stack). -/
def collapse : List Layer → Except Err Value
  | [] => .error .indexError
  | top :: rest => .ok (collapse_into top rest)

/-- The main `while (raw_data := file.readline()) != b""` loop.  Each
iteration consumes the head line and whatever extra lines `on_line`
consumed, so the fuel `lines.length + 1` supplied by `load` is never
exhausted. -/
def load_loop : Nat → List Layer → List String → Except Err (List Layer)
  | 0, _, _ => .error .outOfFuel
  | _ + 1, layers, [] => .ok layers
  | fuel + 1, layers, raw :: rest =>
    match on_line raw rest layers with
    | .error e => .error e
    | .ok (layers', k) => load_loop fuel layers' (rest.drop k)

/-- `YamlWorkaroundLoad.load` / module-level `load`: the file is given as
its list of physical lines.  Peek the first significant line to pick the
root container, then run the main loop and return `data_layers[0].data`. -/
def load (lines : List String) : Except Err Value :=
  match read_future_line ⟨lines, 0⟩ with
  | .error e => .error e
  | .ok (future, f') =>
    let root : Layer :=
      if pyStartsWith (pyStrip future) "- " then ⟨2, .nlist [], .root⟩
      else ⟨0, .ndict [], .root⟩
    match load_loop (f'.lines.length + 1) [root] (f'.lines.drop f'.pos) with
    | .error e => .error e
    | .ok layers => collapse layers

/- ------------------------------------------------------------------ -/
/- Observation helpers used only to state properties.                  -/

/-- Lookup in an insertion-ordered dict (first entry whose key matches). -/
def lookupKey (k : Value) : List (Value × Value) → Option Value
  | [] => none
  | (k', v') :: rest => if keyEq k k' then some v' else lookupKey k rest

/-- The string accumulated by the quoted-block loop over the non-blank,
terminator-free continuation lines: each is stripped and appended after one
separating space. -/
def appendMids (s : String) (mids : List String) : String :=
  mids.foldl (fun a m => a ++ " " ++ pyStrip m) s

/- ------------------------------------------------------------------ -/
/- General lemmas.                                                     -/

theorem data_append (s t : String) : (s ++ t).data = s.data ++ t.data := by
  cases s; cases t; rfl

theorem mk_data (s : String) : (⟨s.data⟩ : String) = s := by
  cases s; rfl

theorem dropWhile_of_head_false {p : Char → Bool} :
    ∀ l : List Char, (∀ c, l.head? = some c → p c = false) → l.dropWhile p = l := by
  intro l h
  cases l with
  | nil => rfl
  | cons c rest => simp [List.dropWhile, h c rfl]

theorem stripLeftWS_eq_self {l : List Char} (h : ∀ c ∈ l, isWS c = false) :
    stripLeftWS l = l := by
  apply dropWhile_of_head_false
  intro c hc
  cases l with
  | nil => simp at hc
  | cons a rest =>
    simp at hc
    exact hc ▸ h a (by simp)

theorem stripRightWS_eq_self {l : List Char} (h : ∀ c ∈ l, isWS c = false) :
    stripRightWS l = l := by
  unfold stripRightWS
  rw [dropWhile_of_head_false]
  · exact l.reverse_reverse
  · intro c hc
    cases hr : l.reverse with
    | nil => simp [hr] at hc
    | cons a rest =>
      rw [hr] at hc
      simp at hc
      apply h
      rw [← l.reverse_reverse, hr]
      simp [hc]

theorem pyStrip_eq_self {s : String} (h : ∀ c ∈ s.data, isWS c = false) :
    pyStrip s = s := by
  unfold pyStrip
  rw [stripLeftWS_eq_self h, stripRightWS_eq_self h, mk_data]

theorem isDigit_not_ws {c : Char} (h : c.isDigit = true) : isWS c = false := by
  by_contra hw
  rw [Bool.not_eq_false] at hw
  simp only [isWS, Bool.or_eq_true, decide_eq_true_eq] at hw
  rcases hw with ((h1 | h1) | h1) | h1 <;> subst h1 <;> exact absurd h (by decide)

theorem isDigit_ne_colon {c : Char} (h : c.isDigit = true) : c ≠ ':' :=
  fun he => by subst he; exact absurd h (by decide)

theorem isDigit_ne_dot {c : Char} (h : c.isDigit = true) : c ≠ '.' :=
  fun he => by subst he; exact absurd h (by decide)

theorem isDigit_ne_dash {c : Char} (h : c.isDigit = true) : c ≠ '-' :=
  fun he => by subst he; exact absurd h (by decide)

theorem isDigit_ne_space {c : Char} (h : c.isDigit = true) : c ≠ ' ' :=
  fun he => by subst he; exact absurd h (by decide)

theorem sum_layer_indent_cons (a : Layer) (l : List Layer) :
    sum_layer_indent (a :: l) = a.indent + sum_layer_indent l := by
  simp [sum_layer_indent]

theorem dedent_go_le {cur : Int} (hc : 0 ≤ cur) :
    ∀ (rest : List Layer) (top : Layer), sum_layer_indent (dedent_go cur top rest) ≤ cur := by
  intro rest
  induction rest with
  | nil =>
    intro top
    unfold dedent_go
    by_cases hlt : cur < top.indent
    · rw [if_pos hlt]
      exact hc
    · rw [if_neg hlt]
      simp only [sum_layer_indent_cons]
      simp only [sum_layer_indent, List.map_nil, List.sum_nil]
      omega
  | cons p rest ih =>
    intro top
    unfold dedent_go
    by_cases hlt : cur < sum_layer_indent (top :: p :: rest)
    · rw [if_pos hlt]
      exact ih (reattach top p)
    · rw [if_neg hlt]
      omega

theorem dedent_le {cur : Int} (hc : 0 ≤ cur) (ls : List Layer) :
    sum_layer_indent (dedent cur ls) ≤ cur := by
  cases ls with
  | nil => exact hc
  | cons top rest => exact dedent_go_le hc rest top

theorem get_list_indent_nonneg {line : String} {n : Int}
    (h : get_list_indent line = some n) : 0 ≤ n := by
  unfold get_list_indent at h
  split at h
  · injection h with h'
    subst h'
    exact Int.natCast_nonneg _
  · exact absurd h (by simp)

theorem get_indent_level_nonneg (line : String) : 0 ≤ get_indent_level line :=
  Int.natCast_nonneg _

theorem pyOr_indent_nonneg (line : String) :
    0 ≤ pyOr (get_list_indent line) (get_indent_level line) := by
  unfold pyOr
  cases h : get_list_indent line with
  | none => exact get_indent_level_nonneg line
  | some n =>
    show 0 ≤ if n = 0 then get_indent_level line else n
    by_cases h0 : n = 0
    · rw [if_pos h0]
      exact get_indent_level_nonneg line
    · rw [if_neg h0]
      exact get_list_indent_nonneg h

theorem lookupKey_dictSet {k v : Value} (hk : keyEq k k = true) :
    ∀ d : List (Value × Value), lookupKey k (dictSet d k v) = some v := by
  intro d
  induction d with
  | nil => simp [dictSet, lookupKey, hk]
  | cons p rest ih =>
    obtain ⟨k', v'⟩ := p
    by_cases h : keyEq k k' = true
    · simp [dictSet, h, lookupKey]
    · simp [dictSet, h, lookupKey, ih]

theorem dictSet_length_of_lookup {k v w : Value} :
    ∀ d : List (Value × Value), lookupKey k d = some v →
      (dictSet d k w).length = d.length := by
  intro d
  induction d with
  | nil => intro h; simp [lookupKey] at h
  | cons p rest ih =>
    obtain ⟨k', v'⟩ := p
    intro h
    by_cases hk : keyEq k k' = true
    · simp [dictSet, hk]
    · simp [lookupKey, hk] at h
      simp [dictSet, hk, ih h]

theorem skip_insig_significant :
    ∀ (ls : List String) (l : String) (n : Nat), skip_insig ls = some (l, n) →
      pyStrip l ≠ "" ∧ pyStartsWith l "#" = false := by
  intro ls
  induction ls with
  | nil => intro l n h; simp [skip_insig] at h
  | cons x rest ih =>
    intro l n h
    unfold skip_insig at h
    split at h
    · cases hr : skip_insig rest with
      | none => rw [hr] at h; simp at h
      | some p =>
        obtain ⟨l0, n0⟩ := p
        rw [hr] at h
        simp at h
        obtain ⟨h1, _⟩ := h
        exact h1 ▸ ih l0 n0 hr
    · rename_i hcond
      simp at h
      obtain ⟨h1, _⟩ := h
      push_neg at hcond
      subst h1
      exact ⟨hcond.1, by simpa using hcond.2⟩

/- ------------------------------------------------------------------ -/
/- Claims.                                                             -/

/-- C1, counterexample: duplicate keys do not raise a `DuplicateKeyError`;
the document `a: 1` / `a: 2` parses successfully and the first value has
been silently overwritten. -/
theorem C1_counterexample :
    load ["a: 1\n", "a: 2\n"] = .ok (.vdict [(.vstr "a", .vint 2)]) := rfl

/-- C1, amended: inserting an entry whose key already exists in the mapping
at the top of the stack does not fail; the assignment replaces the earlier
value in place (Python dict semantics), so the mapping still has no two
entries with the same key, but the earlier value is lost (last one wins). -/
theorem C1_amended :
    ∀ (d : List (Value × Value)) (below : List Layer) (rest : List String) (v : Value),
      lookupKey (.vstr "a") d = some v →
      handle_dict "a: 1\n" 0 rest (⟨0, .ndict d, .root⟩ :: below) =
        .ok (some (⟨0, .ndict (dictSet d (.vstr "a") (.vint 1)), .root⟩ :: below, 0)) ∧
      lookupKey (.vstr "a") (dictSet d (.vstr "a") (.vint 1)) = some (.vint 1) ∧
      (dictSet d (.vstr "a") (.vint 1)).length = d.length := by
  intro d below rest v h
  exact ⟨rfl, lookupKey_dictSet (by decide) d, dictSet_length_of_lookup d h⟩

/-- C1, witness for the amended theorem at a mapping already holding `a`. -/
theorem C1_witness :
    lookupKey (.vstr "a") [(.vstr "a", .vint 7)] = some (.vint 7) ∧
    (handle_dict "a: 1\n" 0 [] [⟨0, .ndict [(.vstr "a", .vint 7)], .root⟩] =
      .ok (some ([⟨0, .ndict (dictSet [(.vstr "a", .vint 7)] (.vstr "a") (.vint 1)), .root⟩], 0)) ∧
     lookupKey (.vstr "a") (dictSet [(.vstr "a", .vint 7)] (.vstr "a") (.vint 1)) = some (.vint 1) ∧
     (dictSet [(.vstr "a", .vint 7)] (.vstr "a") (.vint 1)).length = [((.vstr "a" : Value), (.vint 7 : Value))].length) :=
  ⟨rfl, C1_amended [(.vstr "a", .vint 7)] [] [] (.vint 7) rfl⟩

/-- C5: `load` does not terminate on every finite stream.  On the empty
stream, and on a stream whose last significant content is a mapping key
with no inline value, the lookahead's skip loop runs at end of stream where
`readline()` returns `b""` forever — modelled as the `Err.hang` outcome. -/
theorem C5_eof_hangs :
    load [] = .error .hang ∧ load ["a:\n"] = .error .hang := ⟨rfl, rfl⟩

/-- C6: a bracketed flow-sequence text with exactly one element collapses to
the empty sequence (the `len(split_given) > 1` test sends the one-element
split to the `return []` branch), both in the scalar decoder and through a
whole parse. -/
theorem C6_single_element_collapses :
    handle_value "[5]" = .ok (.vlist []) ∧
    load ["a: [5]\n"] = .ok (.vdict [(.vstr "a", .vlist [])]) := ⟨rfl, rfl⟩

/-- C9: when the lookahead succeeds it returns the stream exactly as it
found it — the backward seek by the accumulated byte count restores the read
position — and the returned line is significant (neither blank nor a
raw-`#` comment line). -/
theorem C9_peek_preserves_position :
    ∀ (f : PFile) (l : String) (f' : PFile), read_future_line f = .ok (l, f') →
      f' = f ∧ pyStrip l ≠ "" ∧ pyStartsWith l "#" = false := by
  intro f l f' h
  unfold read_future_line at h
  cases hs : skip_insig (f.lines.drop f.pos) with
  | none => rw [hs] at h; exact absurd h (by simp)
  | some p =>
    obtain ⟨l0, n⟩ := p
    rw [hs] at h
    simp at h
    obtain ⟨h1, h2⟩ := h
    refine ⟨?_, h1 ▸ skip_insig_significant _ _ _ hs⟩
    rw [← h2]
    unfold PFile.seekBack
    cases f
    simp

/-- C9, witness: peeking a one-line stream leaves the cursor at 0 and the
peeked line is the significant first line. -/
theorem C9_witness :
    (⟨["a: 1\n"], 0⟩ : PFile) = (⟨["a: 1\n"], 0⟩ : PFile) ∧
    pyStrip "a: 1\n" ≠ "" ∧ pyStartsWith "a: 1\n" "#" = false :=
  C9_peek_preserves_position ⟨["a: 1\n"], 0⟩ "a: 1\n" ⟨["a: 1\n"], 0⟩ rfl

/-- C4: before a non-blank, non-comment line is interpreted the stack is
popped while the line's logical indent is below the stack's indent sum; if
the logical indent then differs from the sum the parse fails with the
source's indent-mismatch error (`raise ValueError("weh")`, the spec's
`StructuralError`).  In particular `"a:\n  b: 1\n c: 2\n"` fails so. -/
theorem C4_dedent_rule :
    (∀ (decoded : String) (rest : List String) (layers : List Layer),
      pyStrip decoded ≠ "" →
      pyStartsWith (pyStrip decoded) "#" = false →
      pyOr (get_list_indent decoded) (get_indent_level decoded) ≠
        sum_layer_indent
          (dedent (pyOr (get_list_indent decoded) (get_indent_level decoded)) layers) →
      on_line decoded rest layers = .error .indentMismatch) ∧
    load ["a:\n", "  b: 1\n", " c: 2\n"] = .error .indentMismatch := by
  constructor
  · intro decoded rest layers h1 h2 h3
    have hnn := pyOr_indent_nonneg decoded
    have hle := dedent_le hnn layers
    have hgt :
        sum_layer_indent
            (dedent (pyOr (get_list_indent decoded) (get_indent_level decoded)) layers) <
          pyOr (get_list_indent decoded) (get_indent_level decoded) :=
      lt_of_le_of_ne hle (fun he => h3 he.symm)
    simp [on_line, h1, h2, hgt]
  · rfl

/-- C4, witness: the dedented line `" c: 2\n"` against a 2-indent frame
over the root triggers the indent-mismatch error. -/
theorem C4_witness :
    (pyStrip " c: 2\n" ≠ "" ∧ pyStartsWith (pyStrip " c: 2\n") "#" = false ∧
      pyOr (get_list_indent " c: 2\n") (get_indent_level " c: 2\n") ≠
        sum_layer_indent
          (dedent (pyOr (get_list_indent " c: 2\n") (get_indent_level " c: 2\n"))
            [⟨2, .ndict [], .akey (.vstr "a")⟩, ⟨0, .ndict [(.vstr "a", .vdict [])], .root⟩])) ∧
    on_line " c: 2\n" []
        [⟨2, .ndict [], .akey (.vstr "a")⟩, ⟨0, .ndict [(.vstr "a", .vdict [])], .root⟩] =
      .error .indentMismatch :=
  ⟨⟨by decide, by decide, by decide⟩,
    C4_dedent_rule.1 " c: 2\n" []
      [⟨2, .ndict [], .akey (.vstr "a")⟩, ⟨0, .ndict [(.vstr "a", .vdict [])], .root⟩]
      (by decide) (by decide) (by decide)⟩

/-- C7, counterexample: inserting a comment-only line is not always
structure-neutral.  An indented comment line between an open mapping key and
its container is retained by the lookahead (which only skips comments whose
raw line starts with `#`), inflating the new frame's indent: the document
then fails although it parses fine without the comment line. -/
theorem C7_counterexample :
    load ["a:\n", "    # c\n", "  b: 1\n"] = .error .indentMismatch ∧
    load ["a:\n", "  b: 1\n"] =
      .ok (.vdict [(.vstr "a", .vdict [(.vstr "b", .vint 1)])]) := ⟨rfl, rfl⟩

/-- C7, amended: blank and comment lines are inert exactly where the code
skips them.  The driver ignores any line that is blank or whose trimmed text
starts with `#`, consuming nothing and leaving the stack untouched; the
lookahead skips blank lines and lines whose raw text starts with `#`
(column-0 comments), returning the same line with or without such a line
prepended.  Indented comments in lookahead position, and comment lines
among scalar-block continuation lines, are not skipped. -/
theorem C7_amended :
    (∀ (l : String) (rest : List String) (layers : List Layer),
      pyStrip l = "" ∨ pyStartsWith (pyStrip l) "#" = true →
      on_line l rest layers = .ok (layers, 0)) ∧
    (∀ (l : String) (ls : List String),
      pyStrip l = "" ∨ pyStartsWith l "#" = true →
      (read_future_line ⟨l :: ls, 0⟩).map Prod.fst =
        (read_future_line ⟨ls, 0⟩).map Prod.fst) := by
  constructor
  · rintro l rest layers (h | h)
    · simp [on_line, h]
    · unfold on_line
      by_cases hb : pyStrip l = ""
      · rw [if_pos hb]
      · rw [if_neg hb, if_pos h]
  · intro l ls h
    have hskip : skip_insig (l :: ls) = (skip_insig ls).map (fun p => (p.1, p.2 + 1)) := by
      simp only [skip_insig]
      rw [if_pos h]
    unfold read_future_line
    simp only [List.drop_zero, hskip]
    cases hr : skip_insig ls with
    | none => simp
    | some p =>
      obtain ⟨x, n⟩ := p
      simp [Except.map]

/-- C7, witness for the amended theorem: an indented comment line is inert
for the driver, and a column-0 comment line is inert for the lookahead. -/
theorem C7_witness :
    (pyStrip "  # hi\n" = "" ∨ pyStartsWith (pyStrip "  # hi\n") "#" = true) ∧
    on_line "  # hi\n" ["x: 1\n"] [⟨0, .ndict [], .root⟩] = .ok ([⟨0, .ndict [], .root⟩], 0) ∧
    (pyStrip "# t\n" = "" ∨ pyStartsWith "# t\n" "#" = true) ∧
    (read_future_line ⟨["# t\n", "a: 1\n"], 0⟩).map Prod.fst =
      (read_future_line ⟨["a: 1\n"], 0⟩).map Prod.fst :=
  ⟨Or.inr (by decide), C7_amended.1 "  # hi\n" ["x: 1\n"] [⟨0, .ndict [], .root⟩] (Or.inr (by decide)),
    Or.inr (by decide), C7_amended.2 "# t\n" ["a: 1\n"] (Or.inr (by decide))⟩

/-- C8, counterexample: the payload of a sequence-item line is not
"everything after the first `- ` marker": `lstrip("- ")` strips a character
set, so `"- -3"` loses its payload's own minus sign and loads as the
integer 3, not the text `-3`. -/
theorem C8_counterexample :
    strip_list_indent "- -3\n" = "3\n" ∧ load ["- -3\n"] = .ok (.vlist [.vint 3]) := ⟨rfl, rfl⟩

theorem dropWhile_dashSpace_replicate (n : Nat) (rest : List Char) :
    (List.replicate n ' ' ++ rest).dropWhile (fun c => c = '-' || c = ' ') =
      rest.dropWhile (fun c => c = '-' || c = ' ') := by
  induction n with
  | zero => simp
  | succ n ih => simp [List.replicate_succ, List.dropWhile, ih]

/-- C8, amended: the payload appended for a sequence-item line is the line
with every leading `-` and space removed (Python `lstrip` with a character
set); this equals the text after the first `- ` marker exactly when that
text does not itself start with `-` or a space. -/
theorem C8_amended :
    ∀ (n : Nat) (payload : String),
      (∀ c, payload.data.head? = some c → c ≠ '-' ∧ c ≠ ' ') →
      strip_list_indent (⟨List.replicate n ' '⟩ ++ "- " ++ payload) = payload := by
  intro n payload h
  have h2 : payload.data.dropWhile (fun c => c = '-' || c = ' ') = payload.data := by
    apply dropWhile_of_head_false
    intro c hc
    obtain ⟨hd1, hd2⟩ := h c hc
    simp [hd1, hd2]
  unfold strip_list_indent
  rw [data_append, data_append]
  show (⟨(List.replicate n ' ' ++ ['-', ' '] ++ payload.data).dropWhile _⟩ : String) = payload
  rw [List.append_assoc, dropWhile_dashSpace_replicate]
  show (⟨('-' :: ' ' :: payload.data).dropWhile (fun c => c = '-' || c = ' ')⟩ : String) = payload
  simp only [List.dropWhile]
  norm_num
  rw [h2, mk_data]

/-- C8, witness: a clean payload after a single-space indent and one marker
is returned unchanged. -/
theorem C8_witness :
    (∀ c, ("x\n" : String).data.head? = some c → c ≠ '-' ∧ c ≠ ' ') ∧
    strip_list_indent (⟨List.replicate 1 ' '⟩ ++ "- " ++ "x\n") = "x\n" :=
  ⟨fun c hc => by
      have h' : 'x' = c := Option.some.inj (show some 'x' = some c from hc)
      subst h'
      exact ⟨by decide, by decide⟩,
    C8_amended 1 "x\n" (fun c hc => by
      have h' : 'x' = c := Option.some.inj (show some 'x' = some c from hc)
      subst h'
      exact ⟨by decide, by decide⟩)⟩

theorem filter_ne_dot_of_all_digits {l : List Char} (h : l.all Char.isDigit = true) :
    l.filter (fun c => c ≠ '.') = l := by
  apply List.filter_eq_self.mpr
  intro a ha
  have := List.all_eq_true.mp h a ha
  simpa using isDigit_ne_dot this

/-- The digit-only branch of `handle_value`: an all-digit, non-empty text
decodes to the `int` of its digits. -/
theorem hv_digits {s : String} (hne : s.data ≠ []) (hd : s.data.all Char.isDigit = true) :
    handle_value s = .ok (.vint (digitsToNat s.data)) := by
  have hnw : ∀ c ∈ s.data, isWS c = false :=
    fun c hc => isDigit_not_ws (List.all_eq_true.mp hd c hc)
  have hstrip : pyStrip s = s := pyStrip_eq_self hnw
  unfold handle_value handle_value_f
  simp only [hstrip, filter_ne_dot_of_all_digits hd, mk_data]
  rw [if_pos ⟨hne, hd⟩, if_neg (by intro h; exact h rfl)]

/-- The digits-and-dots branch of `handle_value`: with at least one digit
and at least one dot, `float(given)` is attempted, which succeeds exactly
when the dot is unique. -/
theorem hv_dots {s : String} (hall : s.data.all (fun c => c.isDigit || c = '.') = true)
    (hdig : s.data.any Char.isDigit = true) (hpos : 1 ≤ s.data.count '.') :
    handle_value s =
      if s.data.count '.' = 1 then .ok (.vfloat s) else .error .floatValueError := by
  have hnw : ∀ c ∈ s.data, isWS c = false := by
    intro c hc
    have h0 : c.isDigit = true ∨ c = '.' := by simpa using List.all_eq_true.mp hall c hc
    rcases h0 with h | h
    · exact isDigit_not_ws h
    · subst h
      decide
  have hstrip : pyStrip s = s := pyStrip_eq_self hnw
  have hmem : '.' ∈ s.data := List.one_le_count_iff.mp hpos
  have hnotmem : '.' ∉ s.data.filter (fun c => c ≠ '.') := by
    intro hm
    have := (List.mem_filter.mp hm).2
    simp at this
  have hfilne : s.data.filter (fun c => c ≠ '.') ≠ s.data := by
    intro he
    apply hnotmem
    rw [he]
    exact hmem
  have hfildig : (s.data.filter (fun c => c ≠ '.')).all Char.isDigit = true := by
    apply List.all_eq_true.mpr
    intro a ha
    obtain ⟨ham, hane⟩ := List.mem_filter.mp ha
    have h0 : a.isDigit = true ∨ a = '.' := by simpa using List.all_eq_true.mp hall a ham
    rcases h0 with h | h
    · exact h
    · rw [decide_eq_true_eq] at hane
      exact absurd h hane
  have hfilnonempty : s.data.filter (fun c => c ≠ '.') ≠ [] := by
    obtain ⟨a, ham, hadig⟩ := List.any_eq_true.mp hdig
    exact List.ne_nil_of_mem
      (List.mem_filter.mpr ⟨ham, by simpa using isDigit_ne_dot hadig⟩)
  have hne : (⟨s.data.filter (fun c => c ≠ '.')⟩ : String) ≠ s := by
    intro he
    exact hfilne (congrArg String.data he)
  unfold handle_value handle_value_f
  simp only [hstrip]
  rw [if_pos ⟨hfilnonempty, hfildig⟩, if_pos hne]

/-- C2, counterexample: scalar decoding supports neither a leading minus
(Python `isnumeric` rejects `-`, so `"-5"` decodes to the string `"-5"`,
not the integer −5) nor is it total (`"1.2.3"` reaches `float("1.2.3")`,
which raises `ValueError`, instead of returning the literal string). -/
theorem C2_counterexample :
    handle_value "-5" = .ok (.vstr "-5") ∧
    handle_value "1.2.3" = .error .floatValueError := ⟨rfl, rfl⟩

/-- C2, amended: after trimming, an unsigned all-digit text decodes to
`Int`; a text of digits and exactly one dot (with at least one digit)
decodes to `Float`; digits with two or more dots raise `ValueError`;
`"true"`/`"false"` decode to `Bool`.  A leading `-` is not numeric, so
such texts fall through to the later branches (e.g. to `String`). -/
theorem C2_amended :
    (∀ s : String, s.data ≠ [] → s.data.all Char.isDigit = true →
      handle_value s = .ok (.vint (digitsToNat s.data))) ∧
    (∀ s : String, s.data.all (fun c => c.isDigit || c = '.') = true →
      s.data.any Char.isDigit = true → s.data.count '.' = 1 →
      handle_value s = .ok (.vfloat s)) ∧
    (∀ s : String, s.data.all (fun c => c.isDigit || c = '.') = true →
      s.data.any Char.isDigit = true → 2 ≤ s.data.count '.' →
      handle_value s = .error .floatValueError) ∧
    handle_value "true" = .ok (.vbool true) ∧
    handle_value "false" = .ok (.vbool false) := by
  refine ⟨fun s h1 h2 => hv_digits h1 h2, fun s h1 h2 h3 => ?_, fun s h1 h2 h3 => ?_, rfl, rfl⟩
  · rw [hv_dots h1 h2 (by omega), if_pos h3]
  · rw [hv_dots h1 h2 (by omega), if_neg (by omega)]

/-- C2, witness: the amended branches at `"7"`, `"1.5"` and `"2.3.4"`. -/
theorem C2_witness :
    (("7" : String).data ≠ [] ∧ ("7" : String).data.all Char.isDigit = true ∧
      handle_value "7" = .ok (.vint (digitsToNat ("7" : String).data))) ∧
    (("1.5" : String).data.all (fun c => c.isDigit || c = '.') = true ∧
      ("1.5" : String).data.any Char.isDigit = true ∧
      ("1.5" : String).data.count '.' = 1 ∧
      handle_value "1.5" = .ok (.vfloat "1.5")) ∧
    (("2.3.4" : String).data.all (fun c => c.isDigit || c = '.') = true ∧
      ("2.3.4" : String).data.any Char.isDigit = true ∧
      2 ≤ ("2.3.4" : String).data.count '.' ∧
      handle_value "2.3.4" = .error .floatValueError) :=
  ⟨⟨by decide, by decide, C2_amended.1 "7" (by decide) (by decide)⟩,
   ⟨by decide, by decide, by decide, C2_amended.2.1 "1.5" (by decide) (by decide) (by decide)⟩,
   ⟨by decide, by decide, by decide, C2_amended.2.2.1 "2.3.4" (by decide) (by decide) (by decide)⟩⟩

theorem appendMids_cons (s m : String) (mids : List String) :
    appendMids s (m :: mids) = appendMids (s ++ " " ++ pyStrip m) mids := rfl

theorem head_append_of_ne_nil {s : String} (t : String) (h : s.data ≠ []) :
    (s ++ t).data.head? = s.data.head? := by
  rw [data_append]
  cases hd : s.data with
  | nil => exact absurd hd h
  | cons c rest => simp

theorem append_data_ne_nil {s : String} (t : String) (h : s.data ≠ []) :
    (s ++ t).data ≠ [] := by
  rw [data_append]
  intro he
  exact h (List.append_eq_nil.mp he).1

theorem appendMids_head :
    ∀ (mids : List String) (s : String), s.data ≠ [] →
      (appendMids s mids).data.head? = s.data.head? ∧ (appendMids s mids).data ≠ [] := by
  intro mids
  induction mids with
  | nil => exact fun s h => ⟨rfl, h⟩
  | cons m mids ih =>
    intro s h
    rw [appendMids_cons]
    have hne : (s ++ " " ++ pyStrip m).data ≠ [] :=
      append_data_ne_nil _ (append_data_ne_nil _ h)
    obtain ⟨h1, h2⟩ := ih (s ++ " " ++ pyStrip m) hne
    refine ⟨?_, h2⟩
    rw [h1, head_append_of_ne_nil _ (append_data_ne_nil _ h), head_append_of_ne_nil _ h]

theorem gtb_loop_mids (sc : Char) (ci : Int) (last : String) (rest : List String)
    (hlast : pyStrip last ≠ "")
    (hfind : find_stop_string last sc = some ((pyRStrip last).data.length - 1)) :
    ∀ (mids : List String) (s : String),
      (∀ m ∈ mids, pyStrip m ≠ "" ∧ find_stop_string m sc = none) →
      gtb_loop (some sc) ci s (mids ++ last :: rest) =
        .ok (appendMids s mids ++ " " ++ pyRStripChar (pyStrip last) sc, mids.length + 1) := by
  intro mids
  induction mids with
  | nil =>
    intro s _
    show gtb_loop (some sc) ci s (last :: rest) = _
    simp only [gtb_loop, if_neg hlast, hfind]
    simp [appendMids]
  | cons m mids ih =>
    intro s hm
    obtain ⟨hm1, hm2⟩ := hm m (by simp)
    have hmrest : ∀ x ∈ mids, pyStrip x ≠ "" ∧ find_stop_string x sc = none :=
      fun x hx => hm x (by simp [hx])
    show gtb_loop (some sc) ci s (m :: (mids ++ last :: rest)) = _
    simp only [gtb_loop, if_neg hm1, hm2, ih (s ++ " " ++ pyStrip m) hmrest]
    simp [appendMids_cons, Except.map]

/-- C3, counterexample: a double-quoted value split across two physical
lines does not have its surrounding quotes stripped: the closing quote is
removed from the final line, but the opening quote survives at the front of
the stored value (only the single-line case strips both). -/
theorem C3_counterexample :
    load ["a: \"hello\n", "world\"\n"] =
      .ok (.vdict [(.vstr "a", .vstr "\"hello world")]) ∧
    get_text_block "\"hello" 0 ["world\"\n"] = .ok ("\"hello world", 1) := ⟨rfl, rfl⟩

/-- C3, amended: for a quoted scalar whose terminator is not in the initial
text, the finished string is the initial text (opening quote included),
followed by each non-blank terminator-free continuation line stripped and
prefixed by one space, followed by one space and the final line stripped of
whitespace and of its trailing terminator.  The closing quote is removed but
the first character of the result is still the opening quote. -/
theorem C3_amended :
    ∀ (sc : Char) (s : String) (ci : Int) (mids : List String) (last : String)
      (rest : List String),
      s.data.head? = some sc →
      sc = dquote ∨ sc = squote →
      find_stop_string (pyDropOne s) sc = none →
      (∀ m ∈ mids, pyStrip m ≠ "" ∧ find_stop_string m sc = none) →
      pyStrip last ≠ "" →
      find_stop_string last sc = some ((pyRStrip last).data.length - 1) →
      get_text_block s ci (mids ++ last :: rest) =
        .ok (appendMids s mids ++ " " ++ pyRStripChar (pyStrip last) sc, mids.length + 1) ∧
      (appendMids s mids ++ " " ++ pyRStripChar (pyStrip last) sc).data.head? = some sc := by
  intro sc s ci mids last rest hhead hq hnone hmids hlast hfind
  have hne : s.data ≠ [] := by
    intro he
    rw [he] at hhead
    exact absurd hhead (by simp)
  constructor
  · unfold get_text_block
    cases hd : s.data with
    | nil => exact absurd hd hne
    | cons c tail =>
      rw [hd] at hhead
      simp at hhead
      subst hhead
      simp only [if_pos hq, hnone]
      exact gtb_loop_mids c ci last rest hlast hfind mids s hmids
  · have h2 := appendMids_head mids s hne
    rw [head_append_of_ne_nil _ (append_data_ne_nil _ h2.2),
      head_append_of_ne_nil _ h2.2, h2.1, hhead]

/-- C3, witness: `"hello` continued over a middle line and closed on
`world"` yields `"hello mid world` after two space-joins. -/
theorem C3_witness :
    (("\"hello" : String).data.head? = some dquote ∧
      find_stop_string (pyDropOne "\"hello") dquote = none ∧
      (∀ m ∈ (["mid\n"] : List String), pyStrip m ≠ "" ∧ find_stop_string m dquote = none) ∧
      pyStrip "world\"\n" ≠ "" ∧
      find_stop_string "world\"\n" dquote = some ((pyRStrip "world\"\n").data.length - 1)) ∧
    get_text_block "\"hello" 0 (["mid\n"] ++ ["world\"\n"]) =
      .ok (appendMids "\"hello" ["mid\n"] ++ " " ++ pyRStripChar (pyStrip "world\"\n") dquote, 2) ∧
    (appendMids "\"hello" ["mid\n"] ++ " " ++ pyRStripChar (pyStrip "world\"\n") dquote).data.head? =
      some dquote :=
  ⟨⟨by decide, by decide, by decide, by decide, by decide⟩,
    C3_amended dquote "\"hello" 0 ["mid\n"] "world\"\n" []
      (by decide) (Or.inl rfl) (by decide) (by decide) (by decide) (by decide)⟩

theorem length_dropWhile_le (p : Char → Bool) :
    ∀ l : List Char, (l.dropWhile p).length ≤ l.length := by
  intro l
  induction l with
  | nil => simp
  | cons x xs ih =>
    by_cases hx : p x = true
    · simp only [List.dropWhile, hx, List.length_cons]
      omega
    · rw [Bool.not_eq_true] at hx
      simp [List.dropWhile, hx]

theorem stripRightWS_append_of_clean {a b : List Char}
    (hb : stripRightWS b = b) (hbne : b ≠ []) : stripRightWS (a ++ b) = a ++ b := by
  have hb' : b.reverse.dropWhile isWS = b.reverse := by
    have h0 := congrArg List.reverse hb
    simpa [stripRightWS] using h0
  have hhead : ∀ c, b.reverse.head? = some c → isWS c = false := by
    intro c hc
    cases hbr : b.reverse with
    | nil =>
      rw [hbr] at hc
      simp at hc
    | cons x xs =>
      rw [hbr] at hc
      simp at hc
      subst hc
      rw [hbr] at hb'
      by_contra hx
      rw [Bool.not_eq_false] at hx
      simp only [List.dropWhile, hx] at hb'
      have hlen := congrArg List.length hb'
      have hle := length_dropWhile_le isWS xs
      simp at hlen
      omega
  unfold stripRightWS
  rw [List.reverse_append, dropWhile_of_head_false, List.reverse_append,
    List.reverse_reverse, List.reverse_reverse]
  intro c hc
  apply hhead
  cases hbr : b.reverse with
  | nil =>
    exfalso
    apply hbne
    simpa using congrArg List.reverse hbr
  | cons x xs =>
    rw [hbr] at hc
    simp at hc
    simp [hc]

theorem gdv_loop_digits (vd : List Char) :
    ∀ kd : List Char, kd.all Char.isDigit = true → ∀ acc : List Char,
      gdv_loop acc (kd ++ ':' :: ' ' :: vd) =
        (do
          let k ← handle_value (strip_list_indent ⟨acc.reverse ++ kd⟩)
          let v ← handle_value ⟨' ' :: vd⟩
          Except.ok (some (k, some v))) := by
  intro kd
  induction kd with
  | nil =>
    intro _ acc
    rw [List.append_nil]
    rfl
  | cons d kd ih =>
    intro hall acc
    have hd : d.isDigit = true := List.all_eq_true.mp hall d (by simp)
    have hrest : kd.all Char.isDigit = true := by
      apply List.all_eq_true.mpr
      intro a ha
      exact List.all_eq_true.mp hall a (by simp [ha])
    show gdv_loop acc (d :: (kd ++ ':' :: ' ' :: vd)) = _
    simp only [gdv_loop, if_neg (isDigit_ne_colon hd)]
    rw [ih hrest (d :: acc)]
    simp [List.reverse_cons, List.append_assoc]

/-- C10, counterexample: a mapping line with an all-digit key text produces
an `Int` key in the loaded tree, not a `String` key. -/
theorem C10_counterexample :
    load ["587: foo\n"] = .ok (.vdict [(.vint 587, .vstr "foo")]) := rfl

/-- C10, amended: the key of a mapping entry is decoded by the same
`handle_value` used for values, so a key made only of digits yields the
`Int` of those digits (and the inline value text, space included, is
decoded by `handle_value` as well). -/
theorem C10_amended :
    ∀ (kd : List Char) (v : String),
      kd ≠ [] → kd.all Char.isDigit = true →
      stripRightWS v.data = v.data → v.data ≠ [] →
      get_dict_value (⟨kd⟩ ++ ": " ++ v) =
        (handle_value ⟨' ' :: v.data⟩).map
          (fun w => some (Value.vint (digitsToNat kd), some w)) := by
  intro kd v hne hall hvclean hvne
  obtain ⟨k0, krest, rfl⟩ := List.exists_cons_of_ne_nil hne
  have hk0 : k0.isDigit = true := List.all_eq_true.mp hall k0 (by simp)
  have hheadfacts : ∀ p : Char → Bool, p k0 = false →
      ((k0 :: krest) ++ ':' :: ' ' :: v.data).dropWhile p =
        (k0 :: krest) ++ ':' :: ' ' :: v.data := by
    intro p hp
    apply dropWhile_of_head_false
    intro c hc
    simp at hc
    rw [← hc]
    exact hp
  have hdata : ((⟨k0 :: krest⟩ : String) ++ ": " ++ v).data =
      (k0 :: krest) ++ ':' :: ' ' :: v.data := by
    rw [data_append, data_append]
    show ((k0 :: krest) ++ [':', ' ']) ++ v.data = _
    rw [List.append_assoc]
    rfl
  have h1 : strip_indent ((⟨k0 :: krest⟩ : String) ++ ": " ++ v) =
      ⟨(k0 :: krest) ++ ':' :: ' ' :: v.data⟩ := by
    unfold strip_indent
    rw [hdata, hheadfacts _ (by simpa using isDigit_ne_space hk0)]
  have h2 : pyStrip ⟨(k0 :: krest) ++ ':' :: ' ' :: v.data⟩ =
      ⟨(k0 :: krest) ++ ':' :: ' ' :: v.data⟩ := by
    unfold pyStrip
    show (⟨stripRightWS (stripLeftWS ((k0 :: krest) ++ ':' :: ' ' :: v.data))⟩ : String) = _
    rw [show stripLeftWS ((k0 :: krest) ++ ':' :: ' ' :: v.data) =
        (k0 :: krest) ++ ':' :: ' ' :: v.data from hheadfacts _ (isDigit_not_ws hk0)]
    rw [show (k0 :: krest) ++ ':' :: ' ' :: v.data =
        ((k0 :: krest) ++ [':', ' ']) ++ v.data by simp]
    rw [stripRightWS_append_of_clean hvclean hvne]
  have h3 : strip_list_indent ⟨k0 :: krest⟩ = ⟨k0 :: krest⟩ := by
    unfold strip_list_indent
    show (⟨(k0 :: krest).dropWhile _⟩ : String) = _
    rw [dropWhile_of_head_false]
    intro c hc
    simp at hc
    rw [← hc]
    simp [isDigit_ne_dash hk0, isDigit_ne_space hk0]
  unfold get_dict_value
  rw [h1, h2]
  rw [show ((⟨(k0 :: krest) ++ ':' :: ' ' :: v.data⟩ : String)).data =
      (k0 :: krest) ++ ':' :: ' ' :: v.data from rfl]
  rw [gdv_loop_digits v.data (k0 :: krest) hall []]
  simp only [List.reverse_nil, List.nil_append]
  rw [h3, hv_digits (s := ⟨k0 :: krest⟩) (by simp) hall]
  cases hv : handle_value ⟨' ' :: v.data⟩ with
  | error e => rfl
  | ok w => rfl

/-- C10, witness for the amended theorem at the key text `587`. -/
theorem C10_witness :
    ((['5', '8', '7'] : List Char) ≠ [] ∧
      (['5', '8', '7'] : List Char).all Char.isDigit = true ∧
      stripRightWS ("foo" : String).data = ("foo" : String).data ∧
      ("foo" : String).data ≠ []) ∧
    get_dict_value (⟨['5', '8', '7']⟩ ++ ": " ++ "foo") =
      (handle_value ⟨' ' :: ("foo" : String).data⟩).map
        (fun w => some (Value.vint (digitsToNat ['5', '8', '7']), some w)) :=
  ⟨⟨by decide, by decide, by decide, by decide⟩,
    C10_amended ['5', '8', '7'] "foo" (by decide) (by decide) (by decide) (by decide)⟩

end EveYaml
